import Mathlib

/-!
Verification development for the glide-utils wire protocol and server
command handlers (src/protocol.rs, src/commands.rs, src/data.rs,
src/transfers.rs), shallowly embedded in Lean.

Rust strings are modelled as `Str := List Nat`, the sequence of Unicode
scalar values of the string; byte streams are `List Nat` with every
element below 256.  Encoding a string to the wire applies UTF-8
(`strBytes`); the decoder in the source reads raw bytes and pushes each
one as a `char` (a Latin-1 style read), so decoding keeps bytes as
scalar values unchanged.
-/

/-- A Rust `String`, as its sequence of Unicode scalar values. -/
abbrev Str := List Nat

/-- UTF-8 encoding of a single Unicode scalar value. -/
def utf8EncodeChar (c : Nat) : List Nat :=
  if c < 128 then [c]
  else if c < 2048 then [192 + c / 64, 128 + c % 64]
  else if c < 65536 then [224 + c / 4096, 128 + (c / 64) % 64, 128 + c % 64]
  else [240 + c / 262144, 128 + (c / 4096) % 64, 128 + (c / 64) % 64, 128 + c % 64]

/-- UTF-8 encoding of a string (what `Vec::from(format!(..))` produces). -/
def strBytes (s : Str) : List Nat :=
  (s.map utf8EncodeChar).flatten

/-- Is `b` a UTF-8 continuation byte. -/
def isCont (b : Nat) : Bool :=
  decide (128 ≤ b ∧ b ≤ 191)

/-- `String::from_utf8_lossy`: decode bytes as UTF-8, replacing each
maximal invalid subpart with U+FFFD (65533). -/
def utf8Lossy : List Nat → List Nat
  | [] => []
  | b :: rest =>
    if b < 128 then b :: utf8Lossy rest
    else if 194 ≤ b ∧ b ≤ 223 then
      match rest with
      | b2 :: r2 =>
        if isCont b2 then ((b - 192) * 64 + (b2 - 128)) :: utf8Lossy r2
        else 65533 :: utf8Lossy (b2 :: r2)
      | [] => [65533]
    else if 224 ≤ b ∧ b ≤ 239 then
      match rest with
      | b2 :: r2 =>
        if (if b = 224 then 160 else 128) ≤ b2 ∧ b2 ≤ (if b = 237 then 159 else 191) then
          match r2 with
          | b3 :: r3 =>
            if isCont b3 then
              ((b - 224) * 4096 + (b2 - 128) * 64 + (b3 - 128)) :: utf8Lossy r3
            else 65533 :: utf8Lossy (b3 :: r3)
          | [] => [65533]
        else 65533 :: utf8Lossy (b2 :: r2)
      | [] => [65533]
    else if 240 ≤ b ∧ b ≤ 244 then
      match rest with
      | b2 :: r2 =>
        if (if b = 240 then 144 else 128) ≤ b2 ∧ b2 ≤ (if b = 244 then 143 else 191) then
          match r2 with
          | b3 :: r3 =>
            if isCont b3 then
              match r3 with
              | b4 :: r4 =>
                if isCont b4 then
                  ((b - 240) * 262144 + (b2 - 128) * 4096 + (b3 - 128) * 64 + (b4 - 128))
                    :: utf8Lossy r4
                else 65533 :: utf8Lossy (b4 :: r4)
              | [] => [65533]
            else 65533 :: utf8Lossy (b3 :: r3)
          | [] => [65533]
        else 65533 :: utf8Lossy (b2 :: r2)
      | [] => [65533]
    else 65533 :: utf8Lossy rest
termination_by l => l.length
decreasing_by all_goals simp <;> omega

/-- `u16::to_be_bytes` of a value already below 2 ^ 16. -/
def be16 (n : Nat) : List Nat :=
  [n / 256 % 256, n % 256]

/-- `u32::to_be_bytes`. -/
def be32 (n : Nat) : List Nat :=
  [n / 16777216 % 256, n / 65536 % 256, n / 256 % 256, n % 256]

/-- data.rs `Request`: one incoming file request as the protocol module
(protocol.rs and data.rs) carries it. -/
structure Request where
  sender : Str
  filename : Str
deriving DecidableEq, Repr

/-- commands.rs revision of `Request`: that file constructs and matches
the fields `from_username` and `filename` (see commands.rs lines 153-157
and 248-255), a different revision of the record in data.rs. -/
structure CRequest where
  from_username : Str
  filename : Str
deriving DecidableEq, Repr

/-- commands.rs `Command`. -/
inductive Command where
  | List : Command
  | Requests : Command
  | Glide (path : Str) (toU : Str) : Command
  | Ok (username : Str) : Command
  | No (username : Str) : Command
  | InvalidCommand (s : Str) : Command
deriving DecidableEq, Repr

/-- Alias so that the `Command` payload type stays visible inside the
declaration of `Transmission`, whose own constructor named `Command`
shadows it there. -/
abbrev Cmd := Command

/-- protocol.rs `Transmission`. -/
inductive Transmission where
  | Username (user : Str)
  | UsernameOk
  | UsernameTaken
  | UsernameInvalid
  | Command (cmd : Cmd)
  | GlideRequestSent
  | Metadata (filename : Str) (size : Nat)
  | Chunk (filename : Str) (data : List Nat)
  | ConnectedUsers (users : List Str)
  | IncomingRequests (requests : List Request)
  | OkSuccess
  | OkFailed
  | NoSuccess
  | ClientDisconnected
deriving DecidableEq, Repr

/-- `Transmission::to_bytes` (protocol.rs lines 28-97).  Every arm
mirrors the corresponding `format!` or `vec!` of the source; note that
the source writes command sub-tag 4 for `No` as well as for `Ok`
(protocol.rs lines 84-85), and that the `ConnectedUsers` and
`IncomingRequests` arms pass the big-endian count bytes through
`String::from_utf8_lossy` before re-encoding the whole string as UTF-8.
The source match has no arm for `Command::InvalidCommand` (that variant
belongs to the CLI revision of commands.rs and never reaches the wire);
it is mapped to the empty byte string here. -/
def to_bytes : Transmission → List Nat
  | .Username user => 1 :: (strBytes user ++ [0])
  | .UsernameOk => [2]
  | .UsernameTaken => [3]
  | .UsernameInvalid => [4]
  | .Metadata filename size => 5 :: (strBytes filename ++ [0] ++ be32 size)
  | .Chunk filename data =>
      6 :: (strBytes filename ++ [0] ++ be16 (data.length % 65536) ++ data)
  | .ConnectedUsers users =>
      7 :: (strBytes (utf8Lossy (be16 (users.length % 65536))
              ++ List.intercalate [0] users ++ [0, 0]))
  | .IncomingRequests requests =>
      8 :: (strBytes (utf8Lossy (be16 (requests.length % 65536))
              ++ List.intercalate [0]
                  (requests.map (fun req => req.sender ++ [0] ++ req.filename))
              ++ [0]))
  | .Command .List => [9, 1]
  | .Command .Requests => [9, 2]
  | .Command (.Glide path username) =>
      9 :: (strBytes ([3] ++ path ++ [0] ++ username ++ [0]))
  | .Command (.Ok username) => 9 :: (strBytes ([4] ++ username ++ [0]))
  | .Command (.No username) => 9 :: (strBytes ([4] ++ username ++ [0]))
  | .Command (.InvalidCommand _) => []
  | .OkFailed => [10]
  | .NoSuccess => [11]
  | .ClientDisconnected => [12]
  | .GlideRequestSent => [13]
  | .OkSuccess => [14]

/-- How `Transmission::from_stream` can fail: the stream ends (a blocked
or closed connection), or the code reaches one of its two `panic` arms
for an unknown tag (protocol.rs line 267) or an unknown command sub-tag
(protocol.rs line 254).  Either way no message is returned and the
connection is dead. -/
inductive DecodeError where
  | eof
  | unknownTag (b : Nat)
  | unknownCommand (b : Nat)
deriving DecidableEq, Repr

/-- The null-terminated string reader used by every string field of
`from_stream`: read bytes until `0`, pushing each byte as a char. -/
def readString : List Nat → Option (Str × List Nat)
  | [] => none
  | b :: rest =>
    if b = 0 then some ([], rest)
    else (readString rest).map (fun p => (b :: p.1, p.2))

/-- `read_exact` into a buffer of `n` bytes. -/
def readExact (n : Nat) (l : List Nat) : Option (List Nat × List Nat) :=
  if n ≤ l.length then some (l.take n, l.drop n) else none

/-- Read `n` null-terminated strings (the loop of the `ConnectedUsers`
decoder arm). -/
def readStrings : Nat → List Nat → Option (List Str × List Nat)
  | 0, l => some ([], l)
  | n + 1, l =>
    match readString l with
    | none => none
    | some (s, rest) =>
      match readStrings n rest with
      | none => none
      | some (ss, rest2) => some (s :: ss, rest2)

/-- Read `n` pairs of null-terminated strings (the loop of the
`IncomingRequests` decoder arm). -/
def readRequests : Nat → List Nat → Option (List Request × List Nat)
  | 0, l => some ([], l)
  | n + 1, l =>
    match readString l with
    | none => none
    | some (sender, rest) =>
      match readString rest with
      | none => none
      | some (filename, rest2) =>
        match readRequests n rest2 with
        | none => none
        | some (rs, rest3) => some ({ sender := sender, filename := filename } :: rs, rest3)

/-- The tag dispatch of `Transmission::from_stream` (protocol.rs lines
103-269) for a non-zero first byte `b`: one branch per control byte of
the source match, with the wildcard arms (the source panics) mapped to
errors. -/
def decodeTag (b : Nat) (rest : List Nat) : Except DecodeError (Transmission × List Nat) :=
  if b = 1 then
    match readString rest with
    | some (user, r) => .ok (.Username user, r)
    | none => .error .eof
  else if b = 2 then .ok (.UsernameOk, rest)
  else if b = 3 then .ok (.UsernameTaken, rest)
  else if b = 4 then .ok (.UsernameInvalid, rest)
  else if b = 5 then
    match readString rest with
    | some (filename, r) =>
      match r with
      | b1 :: b2 :: b3 :: b4 :: r2 =>
        .ok (.Metadata filename (b1 * 16777216 + b2 * 65536 + b3 * 256 + b4), r2)
      | _ => .error .eof
    | none => .error .eof
  else if b = 6 then
    match readString rest with
    | some (filename, r) =>
      match r with
      | b1 :: b2 :: r2 =>
        match readExact (b1 * 256 + b2) r2 with
        | some (data, r3) => .ok (.Chunk filename data, r3)
        | none => .error .eof
      | _ => .error .eof
    | none => .error .eof
  else if b = 7 then
    match rest with
    | b1 :: b2 :: r =>
      match readStrings (b1 * 256 + b2) r with
      | some (users, r2) => .ok (.ConnectedUsers users, r2)
      | none => .error .eof
    | _ => .error .eof
  else if b = 8 then
    match rest with
    | b1 :: b2 :: r =>
      match readRequests (b1 * 256 + b2) r with
      | some (requests, r2) => .ok (.IncomingRequests requests, r2)
      | none => .error .eof
    | _ => .error .eof
  else if b = 9 then
    match rest with
    | c :: r =>
      if c = 1 then .ok (.Command .List, r)
      else if c = 2 then .ok (.Command .Requests, r)
      else if c = 3 then
        match readString r with
        | some (path, r2) =>
          match readString r2 with
          | some (username, r3) => .ok (.Command (.Glide path username), r3)
          | none => .error .eof
        | none => .error .eof
      else if c = 4 then
        match readString r with
        | some (username, r2) => .ok (.Command (.Ok username), r2)
        | none => .error .eof
      else if c = 5 then
        match readString r with
        | some (username, r2) => .ok (.Command (.No username), r2)
        | none => .error .eof
      else .error (.unknownCommand c)
    | [] => .error .eof
  else if b = 10 then .ok (.OkFailed, rest)
  else if b = 11 then .ok (.NoSuccess, rest)
  else if b = 12 then .ok (.ClientDisconnected, rest)
  else if b = 13 then .ok (.GlideRequestSent, rest)
  else if b = 14 then .ok (.OkSuccess, rest)
  else .error (.unknownTag b)

/-- `Transmission::from_stream` (protocol.rs lines 99-273) on a finite
byte stream: returns the decoded message and the unread remainder of the
stream.  Tag byte `0` is skipped (the `continue` arm of the source
loop); every other byte dispatches through `decodeTag`; running out of
bytes models the blocked read of a closed stream. -/
def from_stream : List Nat → Except DecodeError (Transmission × List Nat)
  | [] => .error .eof
  | b :: rest => if b = 0 then from_stream rest else decodeTag b rest

/-- data.rs `CHUNK_SIZE`. -/
def CHUNK_SIZE : Nat := 1024

/-- data.rs `UserData` (the `incoming_requests` field holds the
commands.rs revision of the request record). -/
structure UserData where
  socket : Str
  incoming_requests : List CRequest
deriving DecidableEq, Repr

/-- The shared state `HashMap<String, UserData>` of commands.rs,
modelled as an association list with pairwise distinct keys. -/
abbrev Registry := List (Str × UserData)

/-- `HashMap::get` / `contains_key` lookup on the association list. -/
def hmGet {α : Type} : List (Str × α) → Str → Option α
  | [], _ => none
  | (k, v) :: rest, key => if k = key then some v else hmGet rest key

/-- `HashMap::contains_key`. -/
def containsKey {α : Type} (m : List (Str × α)) (key : Str) : Bool :=
  (hmGet m key).isSome

/-- `HashMap::get_mut` followed by a mutation of the entry. -/
def hmModify {α : Type} : List (Str × α) → Str → (α → α) → List (Str × α)
  | [], _, _ => []
  | (k, v) :: rest, key, f =>
    if k = key then (k, f v) :: rest else (k, v) :: hmModify rest key f

/-- Removal of a key (used for `fs::remove_file` on the modelled disk). -/
def hmRemove {α : Type} : List (Str × α) → Str → List (Str × α)
  | [], _ => []
  | (k, v) :: rest, key => if k = key then rest else (k, v) :: hmRemove rest key

/-- The commented-out `ServerResponse` declaration of data.rs, whose
constructors commands.rs uses (`UnknownCommand`, `ConnectedUsers`,
`IncomingRequests`, `GlideRequestSent`, `OkSuccess`, `OkFailed`,
`NoSuccess` all appear in live code there). -/
inductive ServerResponse where
  | UsernameInvalid
  | UsernameTaken
  | UsernameOk
  | UnknownCommand
  | UnknownUser
  | ConnectedUsers (users : List Str)
  | IncomingRequests (requests : List CRequest)
  | GlideRequestSent
  | OkFailed
  | OkSuccess
  | NoSuccess
deriving DecidableEq, Repr

/-- `Iterator::position`: index of the first element satisfying `p`. -/
def position {α : Type} (p : α → Bool) : List α → Option Nat
  | [] => none
  | x :: xs => if p x then some 0 else (position p xs).map (· + 1)

/-- The staged-file path `format!("{}/{}/{}", sender, recipient, filename)`
used by commands.rs (47 is the slash). -/
def stagedPath (sender recipient filename : Str) : Str :=
  sender ++ [47] ++ recipient ++ [47] ++ filename

/-- `Path::file_name` of Rust: the last normal component of the path, or
`None` when the path is empty, a root, or ends in `..` (46 is the dot). -/
def file_name (path : Str) : Option Str :=
  match ((path.splitOn 47).filter (fun c => ¬(c = [] ∨ c = [46]))).getLast? with
  | none => none
  | some c => if c = [46, 46] then none else some c

/-- `Command::cmd_reqs` (commands.rs lines 224-230): the registry entry
of the caller is looked up and unwrapped unconditionally; `none` models
the panic of `unwrap` on a missing entry.  The registry is only read. -/
def cmd_reqs (username : Str) (clients : Registry) : Option ServerResponse :=
  (hmGet clients username).map (fun d => ServerResponse.IncomingRequests d.incoming_requests)

/-- `Command::cmd_glide` (commands.rs lines 232-259).  `none` models the
panic of the `unwrap` on `Path::file_name` for a path with no final
component; the source hits that only after the target checks pass. -/
def cmd_glide (path toU username : Str) (clients : Registry) :
    Option (ServerResponse × Registry) :=
  if containsKey clients toU = false ∨ username = toU then
    some (ServerResponse.UnknownCommand, clients)
  else
    match file_name path with
    | none => none
    | some fname =>
      some (ServerResponse.GlideRequestSent,
        hmModify clients toU (fun d =>
          { d with incoming_requests :=
              d.incoming_requests ++ [{ from_username := username, filename := fname }] }))

/-- `Command::cmd_ok` (commands.rs lines 261-280): a pure check of the
caller queue; the registry is returned untouched because the source only
ever reads it here. -/
def cmd_ok (fromU username : Str) (clients : Registry) : ServerResponse × Registry :=
  match hmGet clients username with
  | some client =>
    if client.incoming_requests.any (fun req => req.from_username = fromU) then
      (ServerResponse.OkSuccess, clients)
    else (ServerResponse.OkFailed, clients)
  | none => (ServerResponse.OkFailed, clients)

/-- `Command::cmd_no` (commands.rs lines 282-302).  Returns the reply,
the new registry, and the staged path whose deletion is attempted (the
source ignores any deletion error).  The `position` index is always in
range, so the `none` fallback of `get?` is dead. -/
def cmd_no (fromU username : Str) (clients : Registry) :
    ServerResponse × Registry × Option Str :=
  match hmGet clients username with
  | some client =>
    match position (fun req => req.from_username = fromU) client.incoming_requests with
    | some pos =>
      match client.incoming_requests.get? pos with
      | some request =>
        (ServerResponse.NoSuccess,
         hmModify clients username (fun d =>
           { d with incoming_requests := d.incoming_requests.eraseIdx pos }),
         some (stagedPath fromU username request.filename))
      | none => (ServerResponse.NoSuccess, clients, none)
    | none => (ServerResponse.NoSuccess, clients, none)
  | none => (ServerResponse.NoSuccess, clients, none)

/-- Fuel-indexed splitting of a byte list into successive `take n`
pieces; the fuel only serves structural recursion and is always at least
the list length where used. -/
def chunksOfAux {α : Type} (n : Nat) : Nat → List α → List (List α)
  | 0, _ => []
  | _, [] => []
  | fuel + 1, x :: xs =>
    if n = 0 then []
    else (x :: xs).take n :: chunksOfAux n fuel (xs.drop (n - 1))

/-- The successive chunks a read loop with buffer size `n` obtains from
a file with the given contents (each read returns `min n remaining`
bytes, and a read of 0 bytes ends the loop). -/
def chunksOf {α : Type} (n : Nat) (l : List α) : List (List α) :=
  chunksOfAux n l.length l

/-- transfers.rs `send_file` (lines 64-94), as the sequence of
`Transmission` frames written to the stream: one `Metadata` frame whose
size field is `metadata.len() as u32` (hence the length modulo 2 ^ 32),
then one `Chunk` frame per `CHUNK_SIZE`-buffer read until EOF.  `none`
models the panic of the `unwrap` on `Path::file_name`. -/
def send_file (path : Str) (contents : List Nat) : Option (List Transmission) :=
  match file_name path with
  | none => none
  | some name =>
    some (Transmission.Metadata name (contents.length % 4294967296) ::
      (chunksOf CHUNK_SIZE contents).map (fun ck => Transmission.Chunk name ck))

/-- The `OkSuccess` relay branch of `Command::handle` (commands.rs lines
140-210) for a received `Ok(from)` command: run `cmd_ok`; when it
replies `OkSuccess`, look up the first queued request from `from`
(the source marks absence `unreachable`, modelled `none`), require the
staged file on disk (`fs::metadata` errors propagate, modelled `none`),
stream its contents in `CHUNK_SIZE` reads, and delete the staged file.
The registry is only ever read in this branch, so the queue survives the
relay; the result carries the reply, the registry, the disk after the
relay, and the relayed chunk payloads. -/
def handle_ok (fromU username : Str) (clients : Registry)
    (disk : List (Str × List Nat)) :
    Option (ServerResponse × Registry × List (Str × List Nat) × List (List Nat)) :=
  let response := (cmd_ok fromU username clients).1
  if response = ServerResponse.OkSuccess then
    match hmGet clients username with
    | none => none
    | some client =>
      match client.incoming_requests.find? (fun req => req.from_username = fromU) with
      | none => none
      | some request =>
        match hmGet disk (stagedPath fromU username request.filename) with
        | none => none
        | some contents =>
          some (response, clients,
            hmRemove disk (stagedPath fromU username request.filename),
            chunksOf CHUNK_SIZE contents)
  else some (response, clients, disk, [])

/-! Helper lemmas. -/

theorem strBytes_ascii (s : Str) (h : ∀ c ∈ s, c < 128) : strBytes s = s := by
  induction s with
  | nil => rfl
  | cons c cs ih =>
    have hc : c < 128 := h c (List.mem_cons_self c cs)
    have hrest : strBytes cs = cs := ih fun x hx => h x (List.mem_cons_of_mem c hx)
    simp only [strBytes] at hrest ⊢
    rw [List.map_cons, List.flatten_cons, hrest,
      show utf8EncodeChar c = [c] from by simp [utf8EncodeChar, hc]]
    rfl

theorem readString_append (s : Str) (r : List Nat) (h : ∀ c ∈ s, c ≠ 0) :
    readString (s ++ 0 :: r) = some (s, r) := by
  induction s with
  | nil => simp [readString]
  | cons c cs ih =>
    have hc : c ≠ 0 := h c (List.mem_cons_self c cs)
    have hrest : readString (cs ++ 0 :: r) = some (cs, r) :=
      ih fun x hx => h x (List.mem_cons_of_mem c hx)
    simp only [List.cons_append, readString, if_neg hc, List.append_eq, hrest,
      Option.map_some]
    rfl

theorem from_stream_dropWhile (s : List Nat) :
    from_stream s = from_stream (s.dropWhile (fun x => x == 0)) := by
  induction s with
  | nil => rfl
  | cons b rest ih =>
    by_cases h : b = 0
    · subst h
      rw [show from_stream (0 :: rest) = from_stream rest from rfl]
      simpa [List.dropWhile_cons] using ih
    · simp [List.dropWhile_cons, h]

theorem dropWhile_head_false {α : Type} (p : α → Bool) (l : List α) (b : α)
    (rest : List α) (h : l.dropWhile p = b :: rest) : p b = false := by
  induction l with
  | nil => simp at h
  | cons x xs ih =>
    rw [List.dropWhile_cons] at h
    by_cases hp : p x
    · exact ih (by simpa [hp] using h)
    · rw [if_neg (by simp [hp])] at h
      cases h
      simp [hp]

theorem hmGet_hmModify_self {α : Type} (m : List (Str × α)) (k : Str) (f : α → α) :
    hmGet (hmModify m k f) k = (hmGet m k).map f := by
  induction m with
  | nil => rfl
  | cons p rest ih =>
    obtain ⟨k', v⟩ := p
    by_cases h : k' = k <;> simp [hmGet, hmModify, h, ih]

theorem position_eq_none_iff {α : Type} (p : α → Bool) (l : List α) :
    position p l = none ↔ ∀ x ∈ l, p x = false := by
  induction l with
  | nil => simp [position]
  | cons x xs ih =>
    by_cases h : p x <;> simp [position, h, ih]

theorem position_eq_some_iff {α : Type} (p : α → Bool) :
    ∀ (l : List α) (i : Nat),
      position p l = some i ↔
        ((∃ x, l.get? i = some x ∧ p x = true) ∧
          ∀ j, j < i → ∀ y, l.get? j = some y → p y = false) := by
  intro l
  induction l with
  | nil => intro i; simp [position]
  | cons x xs ih =>
    intro i
    by_cases h : p x
    · simp only [position, if_pos h]
      cases i with
      | zero =>
        constructor
        · intro _
          exact ⟨⟨x, rfl, h⟩, fun j hj => absurd hj (Nat.not_lt_zero j)⟩
        · intro _
          rfl
      | succ k =>
        constructor
        · intro hcontra
          exact absurd (Option.some.inj hcontra) (by omega)
        · rintro ⟨-, hall⟩
          exact absurd (hall 0 (Nat.succ_pos k) x rfl) (by simp [h])
    · simp only [position, if_neg h]
      cases i with
      | zero =>
        constructor
        · intro hmap
          rcases Option.map_eq_some'.mp hmap with ⟨k, -, hk⟩
          exact absurd hk (by omega)
        · rintro ⟨⟨y, hy, hpy⟩, -⟩
          rw [List.get?_cons_zero] at hy
          injection hy with hy
          rw [← hy] at hpy
          exact absurd hpy h
      | succ k =>
        constructor
        · intro hmap
          rcases Option.map_eq_some'.mp hmap with ⟨k', hk', heq⟩
          have hk2 : position p xs = some k := by
            rw [show k = k' from by omega]
            exact hk'
          rcases (ih k).mp hk2 with ⟨⟨y, hy, hpy⟩, hall⟩
          refine ⟨⟨y, by simpa using hy, hpy⟩, ?_⟩
          intro j hj z hz
          cases j with
          | zero =>
            rw [List.get?_cons_zero] at hz
            injection hz with hz
            rw [hz] at h
            simp only [Bool.not_eq_true] at h
            exact h
          | succ j2 =>
            exact hall j2 (by omega) z (by simpa using hz)
        · rintro ⟨⟨y, hy, hpy⟩, hall⟩
          have hxs : position p xs = some k := by
            refine (ih k).mpr ⟨⟨y, by simpa using hy, hpy⟩, ?_⟩
            intro j hj z hz
            exact hall (j + 1) (by omega) z (by simpa using hz)
          rw [hxs]
          rfl

theorem chunksOfAux_flatten {α : Type} (n : Nat) (hn : n ≠ 0) :
    ∀ (fuel : Nat) (l : List α), l.length ≤ fuel →
      (chunksOfAux n fuel l).flatten = l := by
  intro fuel
  induction fuel with
  | zero =>
    intro l hl
    have hnil : l = [] := List.eq_nil_of_length_eq_zero (Nat.le_zero.mp hl)
    subst hnil
    rfl
  | succ fuel ih =>
    intro l hl
    cases l with
    | nil => rfl
    | cons x xs =>
      simp only [chunksOfAux, if_neg hn, List.flatten_cons]
      rw [ih (xs.drop (n - 1)) (by simp only [List.length_drop]; simp at hl; omega)]
      obtain ⟨m, rfl⟩ := Nat.exists_eq_succ_of_ne_zero hn
      rw [List.take_succ_cons, Nat.succ_sub_one, List.cons_append,
        List.take_append_drop]

theorem chunksOfAux_mem {α : Type} (n : Nat) :
    ∀ (fuel : Nat) (l : List α), ∀ ck ∈ chunksOfAux n fuel l, ck ≠ [] ∧ ck.length ≤ n := by
  intro fuel
  induction fuel with
  | zero => intro l ck hck; simp [chunksOfAux] at hck
  | succ fuel ih =>
    intro l ck hck
    cases l with
    | nil => simp [chunksOfAux] at hck
    | cons x xs =>
      by_cases hn : n = 0
      · simp [chunksOfAux, hn] at hck
      · simp only [chunksOfAux, if_neg hn, List.mem_cons] at hck
        rcases hck with rfl | hck
        · obtain ⟨m, rfl⟩ := Nat.exists_eq_succ_of_ne_zero hn
          exact ⟨by simp [List.take_succ_cons], List.length_take_le _ _⟩
        · exact ih _ ck hck

theorem chunksOfAux_length {α : Type} (n : Nat) (hn : n ≠ 0) :
    ∀ (fuel : Nat) (l : List α), l.length ≤ fuel →
      (chunksOfAux n fuel l).length = (l.length + n - 1) / n := by
  intro fuel
  induction fuel with
  | zero =>
    intro l hl
    have hnil : l = [] := List.eq_nil_of_length_eq_zero (Nat.le_zero.mp hl)
    subst hnil
    simp [chunksOfAux, Nat.div_eq_of_lt (show n - 1 < n by omega)]
  | succ fuel ih =>
    intro l hl
    cases l with
    | nil => simp [chunksOfAux, Nat.div_eq_of_lt (show n - 1 < n by omega)]
    | cons x xs =>
      simp only [chunksOfAux, if_neg hn, List.length_cons]
      rw [ih (xs.drop (n - 1)) (by simp only [List.length_drop]; simp at hl; omega),
        List.length_drop]
      rcases Nat.le_total (n - 1) xs.length with hc | hc
      · rw [show xs.length - (n - 1) + n - 1 = xs.length from by omega,
          show xs.length + 1 + n - 1 = xs.length + n from by omega,
          Nat.add_div_right _ (Nat.pos_of_ne_zero hn)]
      · rw [show xs.length - (n - 1) + n - 1 = n - 1 from by omega,
          Nat.div_eq_of_lt (show n - 1 < n by omega),
          show xs.length + 1 + n - 1 = xs.length + n from by omega,
          Nat.add_div_right _ (Nat.pos_of_ne_zero hn),
          Nat.div_eq_of_lt (show xs.length < n by omega)]

theorem chunksOf_flatten {α : Type} (n : Nat) (hn : n ≠ 0) (l : List α) :
    (chunksOf n l).flatten = l :=
  chunksOfAux_flatten n hn l.length l (Nat.le_refl _)

theorem chunksOf_mem {α : Type} (n : Nat) (l : List α) :
    ∀ ck ∈ chunksOf n l, ck ≠ [] ∧ ck.length ≤ n :=
  chunksOfAux_mem n l.length l

theorem chunksOf_length {α : Type} (n : Nat) (hn : n ≠ 0) (l : List α) :
    (chunksOf n l).length = (l.length + n - 1) / n :=
  chunksOfAux_length n hn l.length l (Nat.le_refl _)

/-! Claim theorems. -/

/-- Claim C1: decoding the bytes produced by encoding should return the
original message for every variant; the code violates this for the
`Command::No` sub-variant.  `to_bytes` writes command sub-tag 4 (the
`Ok` sub-tag) for `No` as well, so the encodings of `No("a")` and
`Ok("a")` coincide and `from_stream` returns `Ok("a")` for an encoded
`No("a")`: the decoder branch for sub-tag 5 (`No`) is unreachable from
the encoder. -/
theorem no_command_encodes_as_ok :
    to_bytes (Transmission.Command (Command.No [97]))
        = to_bytes (Transmission.Command (Command.Ok [97])) ∧
    from_stream (to_bytes (Transmission.Command (Command.No [97])))
        = Except.ok (Transmission.Command (Command.Ok [97]), []) ∧
    Transmission.Command (Command.Ok [97]) ≠ Transmission.Command (Command.No [97]) :=
  ⟨rfl, rfl, by decide⟩

/-- Claim C2: after a succeeding `Ok(from)` command whose staged file was
relayed, the matching pending offer should be gone from the recipient
queue; the code never removes it.  With recipient `"b"` holding one
offer from `"a"` for file `"f"` and the staged file `a/b/f` on disk, the
relay succeeds (the reply is `OkSuccess`, the staged file is deleted,
the contents are streamed), yet the registry still holds the offer and a
subsequent `Requests` command still reports it. -/
theorem ok_relay_keeps_offer :
    handle_ok [97] [98]
        [([98], { socket := [], incoming_requests := [{ from_username := [97], filename := [102] }] })]
        [([97, 47, 98, 47, 102], [1, 2, 3])]
      = some (ServerResponse.OkSuccess,
          [([98], { socket := [], incoming_requests := [{ from_username := [97], filename := [102] }] })],
          [], [[1, 2, 3]]) ∧
    cmd_reqs [98]
        [([98], { socket := [], incoming_requests := [{ from_username := [97], filename := [102] }] })]
      = some (ServerResponse.IncomingRequests [{ from_username := [97], filename := [102] }]) ∧
    ServerResponse.IncomingRequests [{ from_username := [97], filename := [102] }]
      ≠ ServerResponse.IncomingRequests [] :=
  ⟨rfl, rfl, by decide⟩

/-- Claim C3 counterexample: a `Glide` whose target is the issuing user
makes `cmd_glide` reply `UnknownCommand`, not `UsernameInvalid` as the
claim states. -/
theorem cmd_glide_self_gives_unknown_command :
    cmd_glide [102] [97] [97] [([97], { socket := [], incoming_requests := [] })]
      = some (ServerResponse.UnknownCommand,
          [([97], { socket := [], incoming_requests := [] })]) ∧
    ServerResponse.UnknownCommand ≠ ServerResponse.UsernameInvalid :=
  ⟨rfl, by decide⟩

/-- Claim C3 as amended: for every `Glide{path, to}` command whose target
equals the issuing user or is absent from the registry, the response is
`UnknownCommand` (serialized `UNKNOWN_COMMAND`), and the command does
not panic. -/
theorem cmd_glide_invalid_target_response (path toU username : Str) (clients : Registry)
    (h : toU = username ∨ hmGet clients toU = none) :
    (cmd_glide path toU username clients).map Prod.fst
      = some ServerResponse.UnknownCommand := by
  have hcond : containsKey clients toU = false ∨ username = toU := by
    rcases h with h | h
    · exact Or.inr h.symm
    · exact Or.inl (by simp [containsKey, h])
  simp [cmd_glide, if_pos hcond]

theorem cmd_glide_invalid_target_response_witness :
    (cmd_glide [102] [97] [98] []).map Prod.fst = some ServerResponse.UnknownCommand :=
  cmd_glide_invalid_target_response [102] [97] [98] [] (Or.inr rfl)

/-- Claim C4: for every `Glide{path, to}` command whose target equals the
issuing user or is absent from the registry, the registry (and hence
every pending-offer queue) is returned exactly as it was. -/
theorem cmd_glide_invalid_target_frame (path toU username : Str) (clients : Registry)
    (h : toU = username ∨ hmGet clients toU = none) :
    (cmd_glide path toU username clients).map Prod.snd = some clients := by
  have hcond : containsKey clients toU = false ∨ username = toU := by
    rcases h with h | h
    · exact Or.inr h.symm
    · exact Or.inl (by simp [containsKey, h])
  simp [cmd_glide, if_pos hcond]

theorem cmd_glide_invalid_target_frame_witness :
    (cmd_glide [102] [97] [97] [([97], { socket := [], incoming_requests := [] })]).map Prod.snd
      = some [([97], { socket := [], incoming_requests := [] })] :=
  cmd_glide_invalid_target_frame [102] [97] [97]
    [([97], { socket := [], incoming_requests := [] })] (Or.inl rfl)

/-- Claim C9: `cmd_reqs` unwraps the registry lookup unconditionally, so
it panics (modelled `none`) exactly when the caller has no registry
entry, and under the precondition that the caller is registered it
returns the copy of the caller queue. -/
theorem cmd_reqs_totality (username : Str) (clients : Registry) :
    (cmd_reqs username clients = none ↔ hmGet clients username = none) ∧
    (∀ d, hmGet clients username = some d →
      cmd_reqs username clients = some (ServerResponse.IncomingRequests d.incoming_requests)) := by
  rcases hc : hmGet clients username with _ | d <;>
    simp [cmd_reqs, hc]

theorem cmd_reqs_totality_witness :
    (cmd_reqs [97] [] = none ↔ hmGet ([] : Registry) [97] = none) ∧
    (∀ d, hmGet ([] : Registry) [97] = some d →
      cmd_reqs [97] [] = some (ServerResponse.IncomingRequests d.incoming_requests)) :=
  cmd_reqs_totality [97] []

/-- Claim C5: a `No(from)` command always replies `NoSuccess`; when the
caller queue holds an offer from `from`, the first such offer is removed
and deletion of its staged file is attempted (errors ignored — the model
records only the attempted path); when no such offer exists, or the
caller has no entry, nothing changes. -/
theorem cmd_no_semantics (fromU username : Str) (clients : Registry) :
    (cmd_no fromU username clients).1 = ServerResponse.NoSuccess ∧
    (∀ d, hmGet clients username = some d →
      ((∀ r ∈ d.incoming_requests, r.from_username ≠ fromU) →
        (cmd_no fromU username clients).2.1 = clients ∧
        (cmd_no fromU username clients).2.2 = none) ∧
      (∀ i req, d.incoming_requests.get? i = some req → req.from_username = fromU →
        (∀ j, j < i → ∀ r2, d.incoming_requests.get? j = some r2 →
          r2.from_username ≠ fromU) →
        hmGet (cmd_no fromU username clients).2.1 username
            = some { d with incoming_requests := d.incoming_requests.eraseIdx i } ∧
        (cmd_no fromU username clients).2.2
            = some (stagedPath fromU username req.filename))) ∧
    (hmGet clients username = none →
      (cmd_no fromU username clients).2.1 = clients ∧
      (cmd_no fromU username clients).2.2 = none) := by
  rcases hc : hmGet clients username with _ | d
  · refine ⟨by simp [cmd_no, hc], ?_, by simp [cmd_no, hc]⟩
    intro d hd
    cases hd
  · refine ⟨?_, ?_, ?_⟩
    · rcases hpos : position (fun req => req.from_username = fromU) d.incoming_requests
        with _ | pos
      · simp only [cmd_no, hc, hpos]
      · rcases ((position_eq_some_iff _ _ _).mp hpos).1 with ⟨req, hreq, -⟩
        simp only [cmd_no, hc, hpos, hreq]
    · intro d2 hd2
      injection hd2 with hd2
      subst hd2
      constructor
      · intro hno
        have hpos : position (fun req => req.from_username = fromU) d.incoming_requests
            = none := by
          rw [position_eq_none_iff]
          intro x hx
          simp [hno x hx]
        refine ⟨?_, ?_⟩ <;> simp only [cmd_no, hc, hpos]
      · intro i req hget hfrom hmin
        have hpos : position (fun req => req.from_username = fromU) d.incoming_requests
            = some i := by
          rw [position_eq_some_iff]
          refine ⟨⟨req, hget, by simp [hfrom]⟩, ?_⟩
          intro j hj y hy
          simp [hmin j hj y hy]
        refine ⟨?_, ?_⟩ <;> simp only [cmd_no, hc, hpos, hget]
        rw [hmGet_hmModify_self, hc]
        rfl
    · intro hnone
      cases hnone

theorem cmd_no_semantics_witness :
    (cmd_no [97] [98]
        [([98], { socket := [], incoming_requests := [{ from_username := [97], filename := [102] }] })]).1
      = ServerResponse.NoSuccess ∧
    (∀ d, hmGet ([([98], { socket := [], incoming_requests := [{ from_username := [97], filename := [102] }] })] : Registry) [98] = some d →
      ((∀ r ∈ d.incoming_requests, r.from_username ≠ [97]) →
        (cmd_no [97] [98]
            [([98], { socket := [], incoming_requests := [{ from_username := [97], filename := [102] }] })]).2.1
          = [([98], { socket := [], incoming_requests := [{ from_username := [97], filename := [102] }] })] ∧
        (cmd_no [97] [98]
            [([98], { socket := [], incoming_requests := [{ from_username := [97], filename := [102] }] })]).2.2
          = none) ∧
      (∀ i req, d.incoming_requests.get? i = some req → req.from_username = [97] →
        (∀ j, j < i → ∀ r2, d.incoming_requests.get? j = some r2 →
          r2.from_username ≠ [97]) →
        hmGet (cmd_no [97] [98]
            [([98], { socket := [], incoming_requests := [{ from_username := [97], filename := [102] }] })]).2.1 [98]
          = some { d with incoming_requests := d.incoming_requests.eraseIdx i } ∧
        (cmd_no [97] [98]
            [([98], { socket := [], incoming_requests := [{ from_username := [97], filename := [102] }] })]).2.2
          = some (stagedPath [97] [98] req.filename))) ∧
    (hmGet ([([98], { socket := [], incoming_requests := [{ from_username := [97], filename := [102] }] })] : Registry) [98] = none →
      (cmd_no [97] [98]
          [([98], { socket := [], incoming_requests := [{ from_username := [97], filename := [102] }] })]).2.1
        = [([98], { socket := [], incoming_requests := [{ from_username := [97], filename := [102] }] })] ∧
      (cmd_no [97] [98]
          [([98], { socket := [], incoming_requests := [{ from_username := [97], filename := [102] }] })]).2.2
        = none) :=
  cmd_no_semantics [97] [98]
    [([98], { socket := [], incoming_requests := [{ from_username := [97], filename := [102] }] })]

/-- Claim C6: an `Ok(from)` command replies `OkSuccess` exactly when the
caller has a registry entry whose queue holds an offer from `from`; in
every other case (including a missing entry) it replies `OkFailed`, and
the registry is returned unchanged. -/
theorem cmd_ok_semantics (fromU username : Str) (clients : Registry) :
    ((cmd_ok fromU username clients).1 = ServerResponse.OkSuccess ↔
      ∃ d, hmGet clients username = some d ∧
        ∃ r ∈ d.incoming_requests, r.from_username = fromU) ∧
    ((cmd_ok fromU username clients).1 = ServerResponse.OkSuccess ∨
      (cmd_ok fromU username clients).1 = ServerResponse.OkFailed) ∧
    (cmd_ok fromU username clients).2 = clients := by
  rcases hc : hmGet clients username with _ | d
  · simp [cmd_ok, hc]
  · by_cases hany : d.incoming_requests.any (fun r => r.from_username = fromU)
    · refine ⟨?_, Or.inl (by simp only [cmd_ok, hc, if_pos hany]),
        by simp only [cmd_ok, hc, if_pos hany]⟩
      simp only [cmd_ok, hc, if_pos hany]
      constructor
      · intro _
        refine ⟨d, rfl, ?_⟩
        simpa using List.any_eq_true.mp hany
      · intro _
        trivial
    · refine ⟨?_, Or.inr (by simp only [cmd_ok, hc, if_neg hany]),
        by simp only [cmd_ok, hc, if_neg hany]⟩
      simp only [cmd_ok, hc, if_neg hany]
      constructor
      · intro hcontra
        cases hcontra
      · rintro ⟨d2, hd2, r, hr, hfrom⟩
        injection hd2 with hd2
        subst hd2
        exact absurd (List.any_eq_true.mpr ⟨r, hr, by simp [hfrom]⟩) hany

theorem cmd_ok_semantics_witness :
    ((cmd_ok [97] [98]
        [([98], { socket := [], incoming_requests := [{ from_username := [97], filename := [102] }] })]).1
        = ServerResponse.OkSuccess ↔
      ∃ d, hmGet ([([98], { socket := [], incoming_requests := [{ from_username := [97], filename := [102] }] })] : Registry) [98]
          = some d ∧
        ∃ r ∈ d.incoming_requests, r.from_username = [97]) ∧
    ((cmd_ok [97] [98]
        [([98], { socket := [], incoming_requests := [{ from_username := [97], filename := [102] }] })]).1
        = ServerResponse.OkSuccess ∨
      (cmd_ok [97] [98]
        [([98], { socket := [], incoming_requests := [{ from_username := [97], filename := [102] }] })]).1
        = ServerResponse.OkFailed) ∧
    (cmd_ok [97] [98]
        [([98], { socket := [], incoming_requests := [{ from_username := [97], filename := [102] }] })]).2
      = [([98], { socket := [], incoming_requests := [{ from_username := [97], filename := [102] }] })] :=
  cmd_ok_semantics [97] [98]
    [([98], { socket := [], incoming_requests := [{ from_username := [97], filename := [102] }] })]

theorem send_file_unfold (path name : Str) (contents : List Nat)
    (h : file_name path = some name) :
    send_file path contents
      = some (Transmission.Metadata name (contents.length % 4294967296) ::
          (chunksOf CHUNK_SIZE contents).map (fun ck => Transmission.Chunk name ck)) := by
  simp [send_file, h]

/-- Claim C7 counterexample: for a staged file of 2 ^ 32 zero bytes,
`send_file` emits `Metadata` with size field 0, not 2 ^ 32: the source
casts the u64 length to u32, so the claimed `Metadata(filename, size)`
frame only appears for sizes below 2 ^ 32. -/
theorem send_file_truncates_large_size :
    (List.replicate 4294967296 (0 : Nat)).length = 4294967296 ∧
    send_file [102] (List.replicate 4294967296 (0 : Nat))
      = some (Transmission.Metadata [102] 0 ::
          (chunksOf CHUNK_SIZE (List.replicate 4294967296 (0 : Nat))).map
            (fun ck => Transmission.Chunk [102] ck)) ∧
    (0 : Nat) ≠ 4294967296 := by
  refine ⟨List.length_replicate _ _, ?_, by norm_num⟩
  rw [send_file_unfold [102] [102] _ rfl, List.length_replicate, Nat.mod_self]

/-- Claim C7 as amended: `send_file` emits one `Metadata(filename,
size mod 2 ^ 32)` frame (equal to `Metadata(filename, size)` whenever
the size is below 2 ^ 32) followed by the `Chunk` frames of the
successive buffer reads: every payload is non-empty and at most
`CHUNK_SIZE = 1024 ≤ 65535` bytes, the payloads concatenate to the file
contents, and there are `ceil(size / CHUNK_SIZE)` of them. -/
theorem send_file_frames (path name : Str) (contents : List Nat)
    (h : file_name path = some name) :
    send_file path contents
      = some (Transmission.Metadata name (contents.length % 4294967296) ::
          (chunksOf CHUNK_SIZE contents).map (fun ck => Transmission.Chunk name ck)) ∧
    (∀ ck ∈ chunksOf CHUNK_SIZE contents, ck ≠ [] ∧ ck.length ≤ CHUNK_SIZE) ∧
    (chunksOf CHUNK_SIZE contents).flatten = contents ∧
    (chunksOf CHUNK_SIZE contents).length
      = (contents.length + CHUNK_SIZE - 1) / CHUNK_SIZE ∧
    CHUNK_SIZE ≤ 65535 :=
  ⟨send_file_unfold path name contents h, chunksOf_mem CHUNK_SIZE contents,
    chunksOf_flatten CHUNK_SIZE (by decide) contents,
    chunksOf_length CHUNK_SIZE (by decide) contents, by decide⟩

theorem send_file_frames_witness :
    send_file [102] [1, 2, 3]
      = some (Transmission.Metadata [102] (([1, 2, 3] : List Nat).length % 4294967296) ::
          (chunksOf CHUNK_SIZE [1, 2, 3]).map (fun ck => Transmission.Chunk [102] ck)) ∧
    (∀ ck ∈ chunksOf CHUNK_SIZE [1, 2, 3], ck ≠ [] ∧ ck.length ≤ CHUNK_SIZE) ∧
    (chunksOf CHUNK_SIZE ([1, 2, 3] : List Nat)).flatten = [1, 2, 3] ∧
    (chunksOf CHUNK_SIZE ([1, 2, 3] : List Nat)).length
      = (([1, 2, 3] : List Nat).length + CHUNK_SIZE - 1) / CHUNK_SIZE ∧
    CHUNK_SIZE ≤ 65535 :=
  send_file_frames [102] [102] [1, 2, 3] rfl

/-- Claim C8: when the next non-padding byte of the stream is a tag
outside 0x01 - 0x0E, or a Command frame carries a sub-tag outside 1 - 5,
the decoder fails the connection (the source panics; the model returns
an error) and never returns a message. -/
theorem from_stream_unknown_tag_fails (s : List Nat) (b : Nat) (rest : List Nat)
    (hdrop : s.dropWhile (fun x => x == 0) = b :: rest) :
    (¬(1 ≤ b ∧ b ≤ 14) → ∃ e, from_stream s = Except.error e) ∧
    (∀ c r2, b = 9 → rest = c :: r2 → ¬(1 ≤ c ∧ c ≤ 5) →
      ∃ e, from_stream s = Except.error e) := by
  have hb0 : b ≠ 0 := by
    have := dropWhile_head_false (fun x => x == 0) s b rest hdrop
    simpa using this
  have hs : from_stream s = decodeTag b rest := by
    rw [from_stream_dropWhile s, hdrop]
    simp only [from_stream, if_neg hb0]
  constructor
  · intro hb
    have hbge : 15 ≤ b := by
      by_contra hcon
      push_neg at hcon
      exact hb ⟨by omega, by omega⟩
    rw [hs]
    unfold decodeTag
    rw [if_neg (show ¬(b = 1) from by omega), if_neg (show ¬(b = 2) from by omega),
      if_neg (show ¬(b = 3) from by omega), if_neg (show ¬(b = 4) from by omega),
      if_neg (show ¬(b = 5) from by omega), if_neg (show ¬(b = 6) from by omega),
      if_neg (show ¬(b = 7) from by omega), if_neg (show ¬(b = 8) from by omega),
      if_neg (show ¬(b = 9) from by omega), if_neg (show ¬(b = 10) from by omega),
      if_neg (show ¬(b = 11) from by omega), if_neg (show ¬(b = 12) from by omega),
      if_neg (show ¬(b = 13) from by omega), if_neg (show ¬(b = 14) from by omega)]
    exact ⟨_, rfl⟩
  · intro c r2 hb9 hrest hc
    subst hb9
    subst hrest
    have hcc : c = 0 ∨ 6 ≤ c := by
      by_contra hcon
      push_neg at hcon
      exact hc ⟨by omega, by omega⟩
    rw [hs]
    unfold decodeTag
    norm_num
    rw [if_neg (show ¬(c = 1) from by omega), if_neg (show ¬(c = 2) from by omega),
      if_neg (show ¬(c = 3) from by omega), if_neg (show ¬(c = 4) from by omega),
      if_neg (show ¬(c = 5) from by omega)]
    exact ⟨_, rfl⟩

theorem from_stream_unknown_tag_fails_witness :
    ∃ e, from_stream [0, 20] = Except.error e :=
  (from_stream_unknown_tag_fails [0, 20] 20 [] (by decide)).1 (by decide)

/-- Claim C10: encoding a `Chunk` whose data exceeds 65535 bytes does
not fail: the 2-byte length prefix holds the length modulo 2 ^ 16 while
the whole payload is appended, the declared length disagrees with the
payload length, and a decoder reading those bytes returns a `Chunk`
carrying only the first `length mod 2 ^ 16` bytes, leaving the rest of
the payload in the stream to be misread as further frames. -/
theorem chunk_length_truncation (name : Str) (data : List Nat)
    (hname : ∀ c ∈ name, 0 < c ∧ c < 128) (hlen : 65535 < data.length) :
    to_bytes (Transmission.Chunk name data)
      = 6 :: (name ++ [0] ++ be16 (data.length % 65536) ++ data) ∧
    data.length % 65536 ≠ data.length ∧
    from_stream (to_bytes (Transmission.Chunk name data))
      = Except.ok (Transmission.Chunk name (data.take (data.length % 65536)),
          data.drop (data.length % 65536)) ∧
    data.drop (data.length % 65536) ≠ [] := by
  have hascii : strBytes name = name := strBytes_ascii name (fun c hc => (hname c hc).2)
  have h1 : to_bytes (Transmission.Chunk name data)
      = 6 :: (name ++ [0] ++ be16 (data.length % 65536) ++ data) := by
    simp [to_bytes, hascii]
  have hnz : ∀ c ∈ name, c ≠ 0 := fun c hc => Nat.pos_iff_ne_zero.mp (hname c hc).1
  refine ⟨h1, by omega, ?_, ?_⟩
  · rw [h1]
    rw [show from_stream (6 :: (name ++ [0] ++ be16 (data.length % 65536) ++ data))
        = decodeTag 6 (name ++ [0] ++ be16 (data.length % 65536) ++ data) from rfl]
    unfold decodeTag
    norm_num
    rw [readString_append name _ hnz]
    simp only [be16, List.cons_append, List.nil_append]
    rw [show data.length % 65536 / 256 % 256 * 256 + data.length % 65536 % 256
        = data.length % 65536 from by omega]
    simp only [readExact, if_pos (show data.length % 65536 ≤ data.length from by omega)]
  · simp only [ne_eq, List.drop_eq_nil_iff, not_le]
    omega

theorem chunk_length_truncation_witness :
    to_bytes (Transmission.Chunk [97] (List.replicate 65536 (0 : Nat)))
      = 6 :: ([97] ++ [0]
          ++ be16 ((List.replicate 65536 (0 : Nat)).length % 65536)
          ++ List.replicate 65536 (0 : Nat)) ∧
    (List.replicate 65536 (0 : Nat)).length % 65536
      ≠ (List.replicate 65536 (0 : Nat)).length ∧
    from_stream (to_bytes (Transmission.Chunk [97] (List.replicate 65536 (0 : Nat))))
      = Except.ok (Transmission.Chunk [97]
            ((List.replicate 65536 (0 : Nat)).take
              ((List.replicate 65536 (0 : Nat)).length % 65536)),
          (List.replicate 65536 (0 : Nat)).drop
            ((List.replicate 65536 (0 : Nat)).length % 65536)) ∧
    (List.replicate 65536 (0 : Nat)).drop
        ((List.replicate 65536 (0 : Nat)).length % 65536) ≠ [] :=
  chunk_length_truncation [97] (List.replicate 65536 (0 : Nat)) (by decide)
    (by rw [List.length_replicate]; norm_num)
